import Mathlib

/-!
# Verification of the clformat repository

A shallow embedding of the clformat control-string formatter:

* the lazy decimal digit generator (`clformat/src/lib.rs` and its generic
  duplicate `clformat/src/decimal.rs`, structure `Decimal`),
* the measuring sink (`clformat/src/ruler.rs`, structure `Ruler`),
* the control-string parser (`clformat-macro/src/parse.rs`),
* the runtime semantics of the code generated by `write_expressions`
  (`clformat-macro/src/format_input.rs`).

Rust `usize`/`isize` arithmetic is modelled with `Nat`/`Int`; operations
that panic in Rust (division or remainder by zero, `usize` subtraction
underflow in debug profiles, `.expect`/`.unwrap` on exhausted iterators)
are modelled as `none` or `err` results, as noted at each site.
Character strings are modelled as `List Char` (Unicode codepoints, as in
Rust `char`), and the byte length used by `str::len` is recovered by the
explicit UTF-8 length function `utf8Len`.
-/

namespace Clf

/-- Convert a Lean string literal to the `List Char` representation used
throughout the development. -/
def str (s : String) : List Char := s.toList

/-- The `\x7b` character (an opening curly bracket). -/
def lbrace : Char := Char.ofNat 123

/-- The `\x7d` character (a closing curly bracket). -/
def rbrace : Char := Char.ofNat 125

/-- The `\x27` quote character used by the parameter grammar. -/
def quoteChar : Char := Char.ofNat 39

/-- Number of bytes of the UTF-8 encoding of one codepoint (this is what
`str::len` counts per character in Rust). -/
def utf8CharLen (c : Char) : Nat :=
  if c.toNat < 128 then 1
  else if c.toNat < 2048 then 2
  else if c.toNat < 65536 then 3
  else 4

/-- UTF-8 byte length of a character list: the value `str::len` returns on
the corresponding Rust string slice. -/
def utf8Len (s : List Char) : Nat := (s.map utf8CharLen).sum

/-! ## The decimal formatter (`clformat/src/lib.rs`, lines 4–117)

`divisorGo` embeds the `while` loop of the free function `divisor`:
it terminates because the running divisor is multiplied by 10 while the
quotient stays at least 10.  Rust's `isize` division truncates toward
zero, which is `Int.tdiv`; `%` is `Int.tmod`. -/

def divisorGo (number : Int) (d count : Nat) : Nat × Nat :=
  if h : (number.tdiv d).natAbs ≥ 10 then divisorGo number (d * 10) (count + 1)
  else (d, count)
termination_by number.natAbs / d
decreasing_by
  have hd : d ≠ 0 := by
    rintro rfl
    rw [Nat.cast_zero, Int.tdiv_zero] at h
    simp at h
  have h10 : number.natAbs / d ≥ 10 := by
    rwa [Int.natAbs_tdiv] at h
  calc number.natAbs / (d * 10) = number.natAbs / d / 10 := by
        rw [Nat.div_div_eq_div_mul]
    _ < number.natAbs / d := Nat.div_lt_self (by omega) (by omega)

/-- Embeds `fn divisor(number) -> (usize, usize)`: the largest power-of-ten divisor
of `number` together with its decimal digit count (`divisor` starts at 1 and
`count` at 1). -/
def divisorFn (number : Int) : Nat × Nat := divisorGo number 1 1

/-- The `Decimal` iterator state (`struct Decimal`). -/
structure Decimal where
  pad_char : Char
  comma_char : Char
  comma_interval : Nat
  number : Int
  divisor : Nat
  digits : Nat
  print_commas : Bool
  printed_comma : Bool
  print_sign : Bool
  printed_sign : Bool
  pad : Nat
deriving Repr

/-- Embeds `Decimal::new`.  Returns `none` exactly when the Rust constructor
panics:

* `print_commas` with `comma_interval == 0` makes `(digits - 1) /
  comma_interval` a division by zero (a panic in every build profile); the
  check is hoisted to the front, which is observationally equal because the
  computations before it are total;
* when `min_columns > digits` but `min_columns < columns`, the `usize`
  subtraction `min_columns - columns` underflows (a panic in debug builds;
  release builds wrap around to a near-`2^64` pad count). -/
def Decimal.new? (min_columns : Nat) (pad_char comma_char : Char)
    (comma_interval : Nat) (print_commas print_sign : Bool)
    (number : Int) : Option Decimal :=
  if print_commas ∧ comma_interval = 0 then none
  else
    let dc := divisorFn number
    let columns :=
      (if number < 0 ∨ print_sign = true then dc.2 + 1 else dc.2) +
      (if print_commas then (dc.2 - 1) / comma_interval else 0)
    if min_columns > dc.2 ∧ min_columns < columns then none
    else
      some
        { pad_char := pad_char
          comma_char := comma_char
          comma_interval := comma_interval
          print_commas := print_commas
          printed_comma := true
          print_sign := print_sign
          printed_sign := false
          number := number
          divisor := dc.1
          digits := dc.2
          pad := if min_columns > dc.2 then min_columns - columns else 0 }

/-- Embeds `core::char::from_digit(d, 10).unwrap()` for `d < 10`. -/
def digitChar (n : Nat) : Char := Char.ofNat (48 + n)

/-- The digit/comma tail of `Decimal::next` (everything after the sign
handling has fallen through).  `Except.error ()` marks the `digits %
comma_interval` remainder-by-zero panic, reachable only on states that
`Decimal.new?` already refuses to build. -/
def Decimal.emit (s : Decimal) : Except Unit (Option (Char × Decimal)) :=
  if s.print_commas then
    if s.comma_interval = 0 then .error ()
    else if s.digits % s.comma_interval = 0 ∧ s.divisor ≠ 1 ∧ s.printed_comma = false then
      .ok (some (s.comma_char, { s with printed_comma := true }))
    else
      .ok (some (digitChar ((s.number.tdiv s.divisor).tmod 10).natAbs,
        { s with printed_comma := false, divisor := s.divisor / 10, digits := s.digits - 1 }))
  else
    .ok (some (digitChar ((s.number.tdiv s.divisor).tmod 10).natAbs,
      { s with printed_comma := false, divisor := s.divisor / 10, digits := s.digits - 1 }))

/-- Embeds `Decimal::next` (the `Iterator` implementation).  `ok none` is an
exhausted iterator; `error ()` is a panic. -/
def Decimal.next (s : Decimal) : Except Unit (Option (Char × Decimal)) :=
  if s.divisor = 0 then .ok none
  else if s.pad > 0 then .ok (some (s.pad_char, { s with pad := s.pad - 1 }))
  else if s.printed_sign = false then
    let s' := { s with printed_sign := true }
    if s.number > 0 then
      if s.print_sign then .ok (some ('+', s'))
      else s'.emit
    else .ok (some ('-', s'))
  else s.emit

/-- Collect the characters produced by repeatedly calling `Decimal::next`
(the `collect::<String>()` of the tests), with explicit fuel; the iterator
of a state built by `Decimal.new?` finishes within `pad + 2 * digits + 2`
steps. -/
def Decimal.collect : Nat → Decimal → Except Unit (List Char)
  | 0, _ => .error ()
  | fuel + 1, s =>
    match s.next with
    | .error e => .error e
    | .ok none => .ok []
    | .ok (some (c, s')) =>
      match Decimal.collect fuel s' with
      | .error e => .error e
      | .ok cs => .ok (c :: cs)

/-! ## The control-string parser (`clformat-macro/src/parse.rs`)

The nom combinators are embedded directly: a parser takes the remaining
input and either fails or returns the rest of the input with a value.
`PErr.nomErr` stands for an error built by `ParseError::from_error_kind`
(printed as "internal error" by `FormatError::to_string`), `PErr.ours` for
one built by `FromExternalError` (printed as its message).  `nom`'s `alt`
keeps the error of its last alternative (the default `ParseError::or`),
and `cut` only converts `Error` into `Failure`, which no combinator in
this grammar observes, so a single error kind suffices.  The recursive
descent is fuelled; the top entry point supplies `input.length + 1` fuel,
which covers the nesting depth and every loop iteration because each
segment consumes at least one character. -/

inductive PErr where
  | nomErr : PErr
  | ours : String → PErr
deriving Repr, DecidableEq

def PErr.toMessage : PErr → String
  | .nomErr => "internal error"
  | .ours m => m

abbrev PResult (α : Type) := Except PErr (List Char × α)

/-- Embeds `input.starts_with(t)` on string slices. -/
def hasPrefix : List Char → List Char → Bool
  | [], _ => true
  | _ :: _, [] => false
  | p :: ps, c :: cs => p == c && hasPrefix ps cs

/-- Embeds `nom::bytes::complete::tag`. -/
def tagP (t : List Char) (inp : List Char) : PResult Unit :=
  if hasPrefix t inp then .ok (inp.drop t.length, ()) else .error .nomErr

/-- Embeds `nom::character::complete::anychar`. -/
def anycharP : List Char → PResult Char
  | [] => .error .nomErr
  | c :: rest => .ok (rest, c)

/-- Embeds `alt` of two parsers: on failure of the first, the second runs and its
error is kept (nom's default `ParseError::or` returns the newer error). -/
def orP {α : Type} (r : PResult α) (k : Unit → PResult α) : PResult α :=
  match r with
  | .ok x => .ok x
  | .error _ => k ()

/-- enum `State` (`Normal` outside loop bodies, `Loop` inside). -/
inductive PState where
  | Normal : PState
  | Loop : PState
deriving Repr, DecidableEq

/-- enum `Alignment`. -/
inductive Alignment where
  | Left : Alignment
  | Right : Alignment
  | Centre : Alignment
deriving Repr, DecidableEq

/-- struct `Modifiers`; the source field `at` is called `atSign` here
because `at` is a Lean keyword. -/
structure Modifiers where
  colon : Bool
  atSign : Bool
deriving Repr, DecidableEq

/-- Embeds `impl From<Modifiers> for Alignment`. -/
def Alignment.ofModifiers (m : Modifiers) : Alignment :=
  match m.colon, m.atSign with
  | true, true => .Centre
  | true, false => .Right
  | false, true => .Left
  | false, false => .Left

/-- enum `Param`; the source constructor names `Char`/`Num`/`Missing` are
rendered `chr`/`num`/`missing`. -/
inductive Param where
  | chr : Char → Param
  | num : Int → Param
  | missing : Param
deriving Repr, DecidableEq

/-- struct `Params`. -/
structure Params where
  parsed : List Param
deriving Repr, DecidableEq

/-- Embeds `Params::assert_missing`. -/
def Params.assert_missing (p : Params) (idx : Nat) (msg : String) : Except String Unit :=
  match p.parsed.get? idx with
  | none => .ok ()
  | some .missing => .ok ()
  | some _ => .error msg

/-- Embeds `Params::get_num`. -/
def Params.get_num (p : Params) (idx : Nat) (d : Int) : Except String Int :=
  match p.parsed.get? idx with
  | some (.chr c) => .error s!"expected number, found char {c}"
  | some (.num i) => .ok i
  | some .missing => .ok d
  | none => .ok d

/-- Embeds `Params::get_char`. -/
def Params.get_char (p : Params) (idx : Nat) (d : Char) : Except String Char :=
  match p.parsed.get? idx with
  | some (.num i) => .error s!"expected character, found number {i}"
  | some (.chr c) => .ok c
  | some .missing => .ok d
  | none => .ok d

/-- enum `Directive` (`parse.rs`, lines 41–77). -/
inductive Directive where
  | Align (min_columns col_inc min_pad : Nat) (pad_char : Char)
      (direction : Alignment) (inner : List Directive)
  | Break
  | Conditional (boolean consumes : Bool) (default : Option (List Directive))
      (choices : List (List Directive))
  | Decimal (min_columns : Nat) (pad_char comma_char : Char)
      (comma_interval : Nat) (print_commas print_sign : Bool)
  | Float (width num_decimal_places : Nat) (pad_char : Char)
  | Iteration (inner : List Directive)
  | Literal (text : List Char)
  | Newline
  | Skip
  | TildeA
  | TildeS
deriving Repr

/-- Embeds `Directive::new_conditional` (the arity checks on boolean and
consuming conditionals). -/
def Directive.new_conditional (boolean consumes : Bool)
    (choices : List (List Directive)) (default : Option (List Directive)) :
    Except String Directive :=
  if boolean ∧ (choices.length ≠ 2 ∨ default.isSome) then
    .error "boolean conditional must specify exactly two sections"
  else if consumes ∧ (choices.length ≠ 1 ∨ default.isSome) then
    .error "consume conditional must specify exactly one section"
  else
    .ok (.Conditional boolean consumes default choices)

/-- fn `literal`: `take_till1(|c| c == '~')`. -/
def literal (inp : List Char) : PResult Directive :=
  let t := inp.takeWhile (fun c => c ≠ '~')
  if t.isEmpty then .error .nomErr
  else .ok (inp.drop t.length, .Literal t)

/-- Numeric value of a run of ASCII digits (`str::parse::<isize>` on the
output of `digit1`, which never sees a sign). -/
def digitsVal (ds : List Char) : Int :=
  Int.ofNat (ds.foldl (fun a c => a * 10 + (c.toNat - 48)) 0)

/-- fn `param`: a quote-prefixed character, a digit run, or `Missing`
(the empty tag, consuming nothing). -/
def param (inp : List Char) : PResult Param :=
  match inp with
  | c :: c2 :: rest =>
    if c = quoteChar then .ok (rest, .chr c2)
    else
      let ds := inp.takeWhile Char.isDigit
      if ds.isEmpty then .ok (inp, .missing)
      else .ok (inp.drop ds.length, .num (digitsVal ds))
  | [c] =>
    if c.isDigit then .ok ([], .num (digitsVal [c]))
    else .ok ([c], .missing)
  | [] => .ok ([], .missing)

/-- The loop of `nom::multi::separated_list0(tag(","), param)`: after the
first element, repeatedly parse a comma and a further element; a failing
separator or element ends the list (nom's zero-consumption guard never
fires because `tag(",")` always consumes). -/
def paramsLoop : Nat → List Param → List Char → PResult (List Param)
  | 0, _, _ => .error .nomErr
  | fuel + 1, acc, inp =>
    match tagP [','] inp with
    | .error _ => .ok (inp, acc)
    | .ok (inp', _) =>
      match param inp' with
      | .error _ => .ok (inp, acc)
      | .ok (inp'', p) => paramsLoop fuel (acc ++ [p]) inp''

/-- fn `params`. -/
def params (inp : List Char) : PResult Params :=
  match param inp with
  | .error _ => .ok (inp, ⟨[]⟩)
  | .ok (inp', p) =>
    match paramsLoop (inp.length + 1) [p] inp' with
    | .error e => .error e
    | .ok (inp'', ps) => .ok (inp'', ⟨ps⟩)

/-- fn `modifiers`: `take_while(|c| c == ':' || c == '@')`. -/
def modifiers (inp : List Char) : PResult Modifiers :=
  let t := inp.takeWhile (fun c => c = ':' ∨ c = '@')
  .ok (inp.drop t.length, ⟨t.contains ':', t.contains '@'⟩)

/-- fn `params_to_align`. -/
def params_to_align (ps : Params) (ms : Modifiers) (inner : List Directive) :
    Except String Directive := do
  let min_columns ← ps.get_num 0 0
  let col_inc ← ps.get_num 1 0
  let min_pad ← ps.get_num 2 0
  let pad_char ← ps.get_char 3 ' '
  return .Align min_columns.toNat col_inc.toNat min_pad.toNat pad_char
    (Alignment.ofModifiers ms) inner

/-- fn `directive(state)`: `~` params modifiers letter, matched through
`to_ascii_uppercase`.  Errors raised inside `map_res` surface through
`FromExternalError` as `PErr.ours`. -/
def directive (st : PState) (inp : List Char) : PResult Directive :=
  match tagP ['~'] inp with
  | .error e => .error e
  | .ok (inp1, _) =>
    match params inp1 with
    | .error e => .error e
    | .ok (inp2, ps) =>
      match modifiers inp2 with
      | .error e => .error e
      | .ok (inp3, ms) =>
        match anycharP inp3 with
        | .error e => .error e
        | .ok (rest, ch) =>
          let c := ch.toUpper
          let res : Except String Directive :=
            if c = 'A' then .ok .TildeA
            else if c = 'S' then .ok .TildeS
            else if c = 'D' then do
              let min_columns ← ps.get_num 0 0
              let pad_char ← ps.get_char 1 ' '
              let comma_char ← ps.get_char 2 ','
              let comma_interval ← ps.get_num 3 3
              return .Decimal min_columns.toNat pad_char comma_char
                comma_interval.toNat ms.colon ms.atSign
            else if c = 'F' then do
              let width ← ps.get_num 0 0
              let num_decimal_places ← ps.get_num 1 0
              ps.assert_missing 2 "num digits parameter not supported for floats"
              ps.assert_missing 3 "scale factor parameter not supported for floats"
              ps.assert_missing 4 "overflow char parameter not supported for floats"
              let pad_char ← ps.get_char 5 ' '
              return .Float width.toNat num_decimal_places.toNat pad_char
            else if c = '%' then .ok .Newline
            else if c = '*' then .ok .Skip
            else if c = '^' then
              if st ≠ PState.Loop then .error "directive `^` not inside loop"
              else .ok .Break
            else .error s!"invalid directive `~{c}`"
          match res with
          | .ok d => .ok (rest, d)
          | .error msg => .error (.ours msg)

/-- The body loop of fn `alignment`: segments until `~>` or end of input
(end of input is tolerated). -/
def alignmentBody (seg : List Char → PResult Directive) :
    Nat → Params → Modifiers → List Directive → List Char → PResult Directive
  | 0, _, _, _, _ => .error .nomErr
  | fuel + 1, ps, ms, acc, inp =>
    if hasPrefix (str "~>") inp then
      match params_to_align ps ms acc with
      | .ok d => .ok (inp.drop 2, d)
      | .error msg => .error (.ours msg)
    else if inp.isEmpty then
      match params_to_align ps ms acc with
      | .ok d => .ok (inp, d)
      | .error msg => .error (.ours msg)
    else
      match seg inp with
      | .error e => .error e
      | .ok (inp', d) => alignmentBody seg fuel ps ms (acc ++ [d]) inp'

/-- fn `alignment`: `~` params modifiers `<` body. -/
def alignment (seg : List Char → PResult Directive) (fuel : Nat)
    (inp : List Char) : PResult Directive :=
  match tagP ['~'] inp with
  | .error e => .error e
  | .ok (inp1, _) =>
    match params inp1 with
    | .error e => .error e
    | .ok (inp2, ps) =>
      match modifiers inp2 with
      | .error e => .error e
      | .ok (inp3, ms) =>
        match tagP ['<'] inp3 with
        | .error e => .error e
        | .ok (inp4, _) => alignmentBody seg fuel ps ms [] inp4

/-- The body loop of fn `iteration`: segments until `~}` or end of input
(end of input is tolerated). -/
def iterationBody (seg : List Char → PResult Directive) :
    Nat → List Directive → List Char → PResult Directive
  | 0, _, _ => .error .nomErr
  | fuel + 1, acc, inp =>
    if hasPrefix (str "~\x7d") inp then .ok (inp.drop 2, .Iteration acc)
    else if inp.isEmpty then .ok (inp, .Iteration acc)
    else
      match seg inp with
      | .error e => .error e
      | .ok (inp', d) => iterationBody seg fuel (acc ++ [d]) inp'

/-- fn `iteration`: `~{` body. -/
def iteration (seg : List Char → PResult Directive) (fuel : Nat)
    (inp : List Char) : PResult Directive :=
  match tagP (str "~\x7b") inp with
  | .error e => .error e
  | .ok (inp1, _) => iterationBody seg fuel [] inp1

/-- The body loop of fn `conditional`: choices separated by `~;`, an
optional default after `~:;`, closed by `~]` or end of input.  As in the
source, on `~]` the current choice is pushed only when non-empty, and on
end of input it is dropped. -/
def conditionalBody (seg : List Char → PResult Directive) :
    Nat → Bool → Bool → List (List Directive) → List Directive →
    Option (List Directive) → List Char → PResult Directive
  | 0, _, _, _, _, _, _ => .error .nomErr
  | fuel + 1, boolean, consumes, choices, current, default, inp =>
    if hasPrefix (str "~]") inp then
      let choices := if current.isEmpty then choices else choices ++ [current]
      match Directive.new_conditional boolean consumes choices default with
      | .ok d => .ok (inp.drop 2, d)
      | .error msg => .error (.ours msg)
    else if inp.isEmpty then
      match Directive.new_conditional boolean consumes choices default with
      | .ok d => .ok (inp, d)
      | .error msg => .error (.ours msg)
    else if hasPrefix (str "~;") inp then
      if default.isSome then .error (.ours "only the last conditional can be default")
      else conditionalBody seg fuel boolean consumes (choices ++ [current]) [] default (inp.drop 2)
    else if hasPrefix (str "~:;") inp then
      conditionalBody seg fuel boolean consumes (choices ++ [current]) [] (some []) (inp.drop 3)
    else
      match seg inp with
      | .error e => .error e
      | .ok (inp', d) =>
        match default with
        | some ds => conditionalBody seg fuel boolean consumes choices current (some (ds ++ [d])) inp'
        | none => conditionalBody seg fuel boolean consumes choices (current ++ [d]) default inp'

/-- fn `conditional`: `~` params modifiers `[` body; `boolean` is the colon
modifier and `consumes` the at modifier. -/
def conditional (seg : List Char → PResult Directive) (fuel : Nat)
    (inp : List Char) : PResult Directive :=
  match tagP ['~'] inp with
  | .error e => .error e
  | .ok (inp1, _) =>
    match params inp1 with
    | .error e => .error e
    | .ok (inp2, _ps) =>
      match modifiers inp2 with
      | .error e => .error e
      | .ok (inp3, ms) =>
        match tagP ['['] inp3 with
        | .error e => .error e
        | .ok (inp4, _) => conditionalBody seg fuel ms.colon ms.atSign [] [] none inp4

/-- fn `segment(state)`: `alt((literal, alignment, iteration, conditional,
directive(state)))`; the three bracketed forms parse their bodies with
`State::Loop`. -/
def segment : Nat → PState → List Char → PResult Directive
  | 0, _, _ => .error .nomErr
  | fuel + 1, st, inp =>
    orP (literal inp) fun _ =>
    orP (alignment (segment fuel .Loop) fuel inp) fun _ =>
    orP (iteration (segment fuel .Loop) fuel inp) fun _ =>
    orP (conditional (segment fuel .Loop) fuel inp) fun _ =>
    directive st inp

/-- The `many_till(cut(segment(State::Normal)), eof)` loop of
fn `parse_string`: segments until end of input, any failure aborting. -/
def parseLoop : Nat → List Directive → List Char → Except PErr (List Directive)
  | 0, _, _ => .error .nomErr
  | fuel + 1, acc, inp =>
    if inp.isEmpty then .ok acc
    else
      match segment (inp.length + 1) .Normal inp with
      | .error e => .error e
      | .ok (inp', d) => parseLoop fuel (acc ++ [d]) inp'

/-- fn `parse_format_string` composed with `parse_string`: the full parse
of a control string, errors rendered through `FormatError::to_string`. -/
def parseFormatString (s : String) : Except String (List Directive) :=
  match parseLoop (s.toList.length + 1) [] s.toList with
  | .ok ds => .ok ds
  | .error e => .error e.toMessage

/-! ## The execution engine (`clformat-macro/src/format_input.rs`)

`write_expressions` turns the directive tree into inline Rust code; the
functions below give the runtime semantics of that generated code, as a
fuelled interpreter.  Output is kept as the trace of `write_str` calls the
sink receives (a `List (List Char)`), so that both the real sink (which
keeps the characters) and the `Ruler` (which adds up `s.len()`, the UTF-8
byte count) can be read off one run.

Outcomes: `ok` is normal completion (trace received by the sink, remaining
argument cursor), `brk` is a `break` out of the innermost iteration loop,
`err` is a panic or a failure of the generated code to compile (a missing
argument hits `expressions.next().expect("enough parameters")` at
expansion time, and inside a loop body `__formatcl_iteration.next()
.unwrap()` at run time; a `Literal`/`Float` whose text reaches `write!` as
a malformed format string, a `Break` with no enclosing loop, and a value
of the wrong type are compile errors), and `fuelOut` means the fuel ran
out.  `missingArg`, in contrast, is not produced anywhere by `exec`: it
names the `MissingArgument` render-time error value that the specification
describes, and exists only to be compared against what the translated
engine actually does.  `Float` rendering itself is not modelled
(floating-point formatting); its argument handling is. -/

inductive Val where
  | vstr : List Char → Val
  | vint : Int → Val
  | vbool : Bool → Val
  | vlist : List Val → Val

/-- Text written by `write!(w, "{}", v)` (the `Display` form used by the
`~A` arm); `none` when the expression type has no `Display` instance, so
the generated code would not compile (`Vec`). -/
def displayText : Val → Option (List Char)
  | .vstr s => some s
  | .vint n => some (toString n).toList
  | .vbool b => some (if b then str "true" else str "false")
  | .vlist _ => none

/-- Text written by `write!(w, "{:?}", v)` (the `Debug` form used by the
`~S` arm).  `Vec`'s `Debug` output is not modelled (no claim depends on
it). -/
def debugText : Val → Option (List Char)
  | .vstr s => some ('"' :: (s ++ ['"']))
  | .vint n => some (toString n).toList
  | .vbool b => some (if b then str "true" else str "false")
  | .vlist _ => none

/-- Embeds the fact that `write!(writer, lit)` passes a `Literal`'s text to `write!` as the
format string itself (`format_input.rs`, line 146): doubled braces
unescape to one brace, and any other brace is a compile error (an
unmatched brace, or a placeholder with no argument to fill it). -/
def writeLit : List Char → Option (List Char)
  | [] => some []
  | [c] => if c = lbrace ∨ c = rbrace then none else some [c]
  | c :: c2 :: rest =>
    if c = lbrace then
      if c2 = lbrace then (writeLit rest).map (lbrace :: ·)
      else none
    else if c = rbrace then
      if c2 = rbrace then (writeLit rest).map (rbrace :: ·)
      else none
    else (writeLit (c2 :: rest)).map (c :: ·)

/-- The reading of `Ruler::length()` after the writes of a trace:
`write_str` adds `s.len()` — the UTF-8 byte count — for each write
(`ruler.rs`, lines 8–13). -/
def rulerLen (t : List (List Char)) : Nat :=
  t.foldl (fun acc s => acc + utf8Len s) 0

/-- Padding written before the aligned block (`left_fill`): `Right` and
`Centre` write `pad_char` repeated `min_columns - length` and
`(min_columns - length) / 2` times respectively, guarded by
`min_columns > length`; `Left` writes nothing. -/
def leftFillTrace (dir : Alignment) (mc L : Nat) (padc : Char) : List (List Char) :=
  match dir with
  | .Left => []
  | .Right => if mc > L then [List.replicate (mc - L) padc] else []
  | .Centre => if mc > L then [List.replicate ((mc - L) / 2) padc] else []

/-- Padding written after the aligned block (`right_fill`): the mirror
image of `leftFillTrace`, with `Centre` again writing the floor half. -/
def rightFillTrace (dir : Alignment) (mc L : Nat) (padc : Char) : List (List Char) :=
  match dir with
  | .Left => if mc > L then [List.replicate (mc - L) padc] else []
  | .Right => []
  | .Centre => if mc > L then [List.replicate ((mc - L) / 2) padc] else []

/-- Result of running generated code (see the section comment). -/
inductive ExecRes (α : Type) where
  | ok : α → ExecRes α
  | brk : α → ExecRes α
  | err : ExecRes α
  | missingArg : ExecRes α
  | fuelOut : ExecRes α
deriving Repr, DecidableEq

/-- Prepend one written string to the trace of a result. -/
def mapCons (t : List Char) :
    ExecRes (List (List Char) × List Val) → ExecRes (List (List Char) × List Val)
  | .ok (ts, a) => .ok (t :: ts, a)
  | .brk (ts, a) => .brk (t :: ts, a)
  | r => r

/-- Prepend a trace to the trace of a result. -/
def mapAppend (t : List (List Char)) :
    ExecRes (List (List Char) × List Val) → ExecRes (List (List Char) × List Val)
  | .ok (ts, a) => .ok (t ++ ts, a)
  | .brk (ts, a) => .brk (t ++ ts, a)
  | r => r

/-- Modelled from the spec: the `Conditional` arm of the engine.  The
match in `write_expressions` (`format_input.rs`, lines 117–314) has no
`Conditional` case — the code that renders conditionals is not among the
sources — so this one arm of `exec` follows spec §4.2 instead: boolean
form (exactly two choices): pop one boolean, false selects choice 0, true
selects choice 1; consuming form: pop one boolean, execute the single
choice only when it is true; index form: pop one integer, execute the
choice it indexes, else the default if present, else nothing.  Every
other arm of `exec` is translated from `write_expressions`.

`exec fuel inLoop dirs args` runs the code generated for `dirs`.  At top
level (`inLoop = false`) `args` are the macro's expression values, popped
at expansion time; inside an iteration body (`inLoop = true`) they are
the remaining elements of the loop's runtime iterator, and `Align`'s
measuring pass consumes them (its `expressions.clone()` clones
`IndexedExpression`, whose items all read the one shared runtime
iterator), while at top level the clone leaves the writer pass the same
expressions. -/
def exec : Nat → Bool → List Directive → List Val →
    ExecRes (List (List Char) × List Val)
  | 0, _, _, _ => .fuelOut
  | _ + 1, _, [], args => .ok ([], args)
  | fuel + 1, inLoop, d :: rest, args =>
    match d with
    | .Literal s =>
      match writeLit s with
      | none => .err
      | some t => mapCons t (exec fuel inLoop rest args)
    | .Newline => mapCons ['\n'] (exec fuel inLoop rest args)
    | .TildeA =>
      match args with
      | [] => .err
      | v :: args' =>
        match displayText v with
        | none => .err
        | some t => mapCons t (exec fuel inLoop rest args')
    | .TildeS =>
      match args with
      | [] => .err
      | v :: args' =>
        match debugText v with
        | none => .err
        | some t => mapCons t (exec fuel inLoop rest args')
    | .Skip =>
      match args with
      | [] => .err
      | _ :: args' => exec fuel inLoop rest args'
    | .Break =>
      if inLoop then
        if args.isEmpty then .brk ([], args)
        else exec fuel inLoop rest args
      else .err
    | .Decimal mc pc cc ci pcm psn =>
      match args with
      | [] => .err
      | v :: args' =>
        match v with
        | .vint n =>
          match Decimal.new? mc pc cc ci pcm psn n with
          | none => .err
          | some dst =>
            match dst.collect (dst.pad + 2 * dst.digits + 2) with
            | .error _ => .err
            | .ok t => mapCons t (exec fuel inLoop rest args')
        | _ => .err
    | .Float _ _ _ =>
      match args with
      | [] => .err
      | _ :: _ => .err
    | .Iteration body =>
      match args with
      | [] => .err
      | v :: args' =>
        match v with
        | .vlist elems =>
          if elems.isEmpty then exec fuel inLoop rest args'
          else
            match exec fuel true body elems with
            | .ok (t, elems') =>
              mapAppend t (exec fuel inLoop (.Iteration body :: rest) (.vlist elems' :: args'))
            | .brk (t, _) => mapAppend t (exec fuel inLoop rest args')
            | .err => .err
            | .missingArg => .missingArg
            | .fuelOut => .fuelOut
        | _ => .err
    | .Align mc _ci _mp padc dir inner =>
      match exec fuel inLoop inner args with
      | .ok (rt, args1) =>
        let L := rulerLen rt
        let args2 := if inLoop then args1 else args
        match exec fuel inLoop inner args2 with
        | .ok (wt, args3) =>
          mapAppend (leftFillTrace dir mc L padc ++ wt ++ rightFillTrace dir mc L padc)
            (exec fuel inLoop rest args3)
        | .brk (wt, argsB) => .brk (leftFillTrace dir mc L padc ++ wt, argsB)
        | r => r
      | .brk (_, argsB) => .brk ([], argsB)
      | r => r
    | .Conditional boolean consumes default choices =>
      match args with
      | [] => .err
      | v :: args' =>
        if boolean then
          match v with
          | .vbool b =>
            match choices.get? (if b then 1 else 0) with
            | some ch =>
              match exec fuel inLoop ch args' with
              | .ok (t, args2) => mapAppend t (exec fuel inLoop rest args2)
              | r => r
            | none => .err
          | _ => .err
        else if consumes then
          match v with
          | .vbool b =>
            if b then
              match choices.get? 0 with
              | some ch =>
                match exec fuel inLoop ch args' with
                | .ok (t, args2) => mapAppend t (exec fuel inLoop rest args2)
                | r => r
              | none => .err
            else exec fuel inLoop rest args'
          | _ => .err
        else
          match v with
          | .vint n =>
            if 0 ≤ n ∧ n.toNat < choices.length then
              match choices.get? n.toNat with
              | some ch =>
                match exec fuel inLoop ch args' with
                | .ok (t, args2) => mapAppend t (exec fuel inLoop rest args2)
                | r => r
              | none => .err
            else
              match default with
              | some dflt =>
                match exec fuel inLoop dflt args' with
                | .ok (t, args2) => mapAppend t (exec fuel inLoop rest args2)
                | r => r
              | none => exec fuel inLoop rest args'
          | _ => .err

/-- The characters the real sink holds after a successful top-level run. -/
def renderOut (fuel : Nat) (dirs : List Directive) (args : List Val) :
    Option (List Char) :=
  match exec fuel false dirs args with
  | .ok (t, _) => some t.flatten
  | _ => none

/-- The length the `Ruler` reports after the same run is directed at it
instead of the real sink. -/
def measuredLen (fuel : Nat) (dirs : List Directive) (args : List Val) :
    Option Nat :=
  match exec fuel false dirs args with
  | .ok (t, _) => some (rulerLen t)
  | _ => none

/-! ## Evaluation lemmas for the divisor loop -/

theorem divisorFn_zero : divisorFn 0 = (1, 1) := by
  unfold divisorFn divisorGo
  rw [dif_neg (by decide)]

theorem divisorFn_neg4200 : divisorFn (-4200) = (1000, 4) := by
  unfold divisorFn divisorGo
  rw [dif_pos (by decide)]
  norm_num
  unfold divisorGo
  rw [dif_pos (by decide)]
  norm_num
  unfold divisorGo
  rw [dif_pos (by decide)]
  norm_num
  unfold divisorGo
  rw [dif_neg (by decide)]

/-! ## Claims about the decimal formatter -/

/-- C1: the claim says the sign character is `-` always and only for
negative values, and that zero with `print_sign` unset emits no sign.  The
code disagrees: `Decimal::next` tests `self.number > 0` and returns `'-'`
in the `else` branch, so the value `0` — for which `Decimal::new` did not
even reserve a sign column — is rendered as `-0`. -/
theorem c1_zero_renders_minus_zero :
    (Decimal.new? 0 ' ' ',' 3 false false 0).map (Decimal.collect 10)
      = some (.ok (str "-0")) := by
  have h : Decimal.new? 0 ' ' ',' 3 false false 0 =
      some { pad_char := ' ', comma_char := ',', comma_interval := 3, number := 0,
             divisor := 1, digits := 1, print_commas := false, printed_comma := true,
             print_sign := false, printed_sign := false, pad := 0 } := by
    simp [Decimal.new?, divisorFn_zero]
  rw [h]
  rfl

/-- C2: the pad count is guarded by `min_columns > digits` but subtracts
`columns`; for `-4200` with grouping (digits 4, columns 6) and
`min_columns = 5` the `usize` subtraction `5 - 6` underflows (a panic in
debug builds), instead of the claimed `max(0, 5 - 6) = 0`.  The spec's own
example (`min_columns = 10`) sits outside the bad region and renders
`____-4,200`. -/
theorem c2_pad_underflow :
    Decimal.new? 5 ' ' ',' 3 true false (-4200) = none ∧
    (Decimal.new? 10 '_' ',' 3 true false (-4200)).map (Decimal.collect 30)
      = some (.ok (str "____-4,200")) := by
  constructor
  · simp [Decimal.new?, divisorFn_neg4200]
  · have h : Decimal.new? 10 '_' ',' 3 true false (-4200) =
        some { pad_char := '_', comma_char := ',', comma_interval := 3, number := -4200,
               divisor := 1000, digits := 4, print_commas := true, printed_comma := true,
               print_sign := false, printed_sign := false, pad := 4 } := by
      simp [Decimal.new?, divisorFn_neg4200]
    rw [h]
    rfl

/-- C10: with grouping enabled and `comma_interval = 0`, constructing a
`Decimal` divides by zero in `(digits - 1) / comma_interval` for every
number (first conjunct), the remainder `digits % comma_interval` in
`next` is likewise a division by zero (second conjunct, on a
representative mid-iteration state), and the parser accepts `~,,,0:D`,
which produces exactly this configuration (third conjunct). -/
theorem c10_comma_interval_zero_panics :
    (∀ (mc : Nat) (pc cc : Char) (ps : Bool) (n : Int),
        Decimal.new? mc pc cc 0 true ps n = none) ∧
    Decimal.emit { pad_char := ' ', comma_char := ',', comma_interval := 0, number := 42,
                   divisor := 10, digits := 2, print_commas := true, printed_comma := false,
                   print_sign := false, printed_sign := true, pad := 0 } = .error () ∧
    parseFormatString "~,,,0:D" = .ok [.Decimal 0 ' ' ',' 0 true false] := by
  refine ⟨fun mc pc cc ps n => by simp [Decimal.new?], by rfl, by rfl⟩

/-! ## Claims about the parser -/

/-- C5 counterexample: the claim says `~^` inside an alignment block that
is not nested in an iteration body is a parse error; in fact `alignment`
parses its body with `segment(State::Loop)` (parse.rs line 280), so
`~<~^~>` parses successfully. -/
theorem c5_break_in_alignment_parses :
    parseFormatString "~<~^~>" = .ok [.Align 0 0 0 ' ' .Left [.Break]] := by
  rfl

/-- C5 amended: `~^` fails with `BreakOutsideLoop` only at positions
parsed in `State::Normal` (e.g. the top level); alignment and conditional
bodies are parsed with `State::Loop` exactly like iteration bodies
(parse.rs lines 232, 280, 300), so `~^` inside `~<...~>` or `~[...~]`
parses successfully as `Break` even with no enclosing iteration. -/
theorem c5_break_state_amended :
    parseFormatString "~^" = .error "directive `^` not inside loop" ∧
    parseFormatString "~[~^~]" = .ok [.Conditional false false none [[.Break]]] ∧
    parseFormatString "~a~<~^~>" = .ok [.TildeA, .Align 0 0 0 ' ' .Left [.Break]] := by
  refine ⟨rfl, rfl, rfl⟩

/-- C6: the boolean-form conditional (colon modifier, two choices) pops
one boolean and selects choice 1 on `true`, choice 0 on `false`.  The
parser arm is translated from the source; the rendering arm is modelled
from the spec (the `Conditional` case of `write_expressions` is not among
the sources — see `exec`). -/
theorem c6_boolean_conditional :
    parseFormatString "~:[nork~;zoggle~]" =
      .ok [.Conditional true false none
        [[.Literal (str "nork")], [.Literal (str "zoggle")]]] ∧
    renderOut 9 [.Conditional true false none
        [[.Literal (str "nork")], [.Literal (str "zoggle")]]] [.vbool true]
      = some (str "zoggle") ∧
    renderOut 9 [.Conditional true false none
        [[.Literal (str "nork")], [.Literal (str "zoggle")]]] [.vbool false]
      = some (str "nork") := by
  refine ⟨rfl, rfl, rfl⟩

/-- C7 counterexample: a directive-free control string containing braces
is not reproduced: `write_expressions` passes the literal's text to
`write!` as the format string (format_input.rs line 146), so the parsed
literal `\x7b\x7b` renders as a single `\x7b`. -/
theorem c7_braces_not_reproduced :
    parseFormatString "\x7b\x7b" = .ok [.Literal (str "\x7b\x7b")] ∧
    renderOut 9 [.Literal (str "\x7b\x7b")] [] = some (str "\x7b") ∧
    str "\x7b" ≠ str "\x7b\x7b" := by
  refine ⟨rfl, rfl, by decide⟩

/-- Lemma: `take_till1` on a tilde-free predicate consumes a whole tilde-free, non-empty
input. -/
theorem literal_all (cs : List Char) (hne : cs ≠ [])
    (hnt : ∀ c ∈ cs, c ≠ '~') : literal cs = .ok ([], .Literal cs) := by
  have htw : cs.takeWhile (fun c => c ≠ '~') = cs := by
    rw [List.takeWhile_eq_self_iff]
    intro x hx
    simpa using hnt x hx
  unfold literal
  rw [htw]
  simp [hne, List.drop_length]

/-- A brace-free literal text passes through the `write!` format-string
machinery unchanged. -/
theorem writeLit_no_brace :
    ∀ (s : List Char), (∀ c ∈ s, c ≠ lbrace ∧ c ≠ rbrace) → writeLit s = some s := by
  intro s
  induction s with
  | nil => intro _; rfl
  | cons c tail ih =>
    intro h
    have hc := h c (by simp)
    cases tail with
    | nil => simp [writeLit, hc.1, hc.2]
    | cons c2 rest =>
      have ht : writeLit (c2 :: rest) = some (c2 :: rest) :=
        ih (fun x hx => h x (by simp [hx]))
      simp only [writeLit]
      rw [if_neg hc.1, if_neg hc.2, ht]
      rfl

theorem exec_nil (fuel : Nat) (b : Bool) (args : List Val) :
    exec (fuel + 1) b [] args = .ok ([], args) := rfl

theorem exec_literal_cons (fuel : Nat) (b : Bool) (s t : List Char)
    (rest : List Directive) (args : List Val) (h : writeLit s = some t) :
    exec (fuel + 1) b (.Literal s :: rest) args = mapCons t (exec fuel b rest args) := by
  simp [exec, h]

/-- C7 amended: a non-empty control string without `~` parses to a single
`Literal` holding the whole text, and rendering against no arguments
reproduces it exactly, provided the text contains no brace characters
(braces are metacharacters of the `write!` format string the literal is
spliced into; `c7_braces_not_reproduced` shows the brace case). -/
theorem c7_no_directives_roundtrip (s : String) (hne : s.toList ≠ [])
    (hnt : ∀ c ∈ s.toList, c ≠ '~')
    (hnb : ∀ c ∈ s.toList, c ≠ lbrace ∧ c ≠ rbrace) :
    parseFormatString s = .ok [.Literal s.toList] ∧
    ∀ fuel, renderOut (fuel + 2) [.Literal s.toList] [] = some s.toList := by
  constructor
  · cases hcs : s.toList with
    | nil => exact absurd hcs hne
    | cons c cs' =>
      rw [hcs] at hnt
      have hlit : literal (c :: cs') = .ok ([], .Literal (c :: cs')) :=
        literal_all _ (by simp) hnt
      unfold parseFormatString
      rw [hcs]
      have hseg : segment ((c :: cs').length + 1) .Normal (c :: cs')
          = .ok ([], .Literal (c :: cs')) := by
        unfold segment
        rw [hlit]
        rfl
      unfold parseLoop
      rw [if_neg (by simp)]
      rw [hseg]
      rfl
  · intro fuel
    have hw : writeLit s.toList = some s.toList := writeLit_no_brace _ hnb
    have h2 : exec (fuel + 2) false [Directive.Literal s.toList] [] = .ok ([s.toList], []) := by
      rw [show fuel + 2 = (fuel + 1) + 1 by omega]
      rw [exec_literal_cons (fuel + 1) false _ _ _ _ hw, exec_nil]
      rfl
    unfold renderOut
    rw [h2]
    simp

/-- C7 witness. -/
theorem c7_no_directives_roundtrip_witness :
    ((str "zork" ≠ []) ∧ (∀ c ∈ str "zork", c ≠ '~') ∧
      (∀ c ∈ str "zork", c ≠ lbrace ∧ c ≠ rbrace)) ∧
    parseFormatString "zork" = .ok [.Literal (str "zork")] ∧
    renderOut 9 [.Literal (str "zork")] [] = some (str "zork") := by
  refine ⟨⟨by decide, by decide, by decide⟩, ?_, ?_⟩
  · exact (c7_no_directives_roundtrip "zork" (by decide) (by decide) (by decide)).1
  · exact (c7_no_directives_roundtrip "zork" (by decide) (by decide) (by decide)).2 7

/-! ## Claims about the Ruler -/

theorem utf8Len_append (x y : List Char) :
    utf8Len (x ++ y) = utf8Len x + utf8Len y := by
  simp [utf8Len]

theorem rulerLen_foldl (t : List (List Char)) :
    ∀ a : Nat, t.foldl (fun acc s => acc + utf8Len s) a = a + utf8Len t.flatten := by
  induction t with
  | nil => intro a; simp [utf8Len]
  | cons s ts ih =>
    intro a
    simp only [List.foldl_cons, List.flatten_cons, ih, utf8Len_append]
    omega

/-- What the Ruler accumulates over a trace is the UTF-8 byte length of
the concatenated text. -/
theorem rulerLen_eq_utf8Len (t : List (List Char)) :
    rulerLen t = utf8Len t.flatten := by
  simpa using rulerLen_foldl t 0

theorem utf8Len_ascii (s : List Char) (h : ∀ c ∈ s, c.toNat < 128) :
    utf8Len s = s.length := by
  induction s with
  | nil => rfl
  | cons c cs ih =>
    have hc : utf8CharLen c = 1 := by
      unfold utf8CharLen
      rw [if_pos (h c (by simp))]
    simp only [utf8Len, List.map_cons, List.sum_cons] at *
    rw [hc, ih (fun x hx => h x (by simp [hx])), List.length_cons]
    omega

/-- C4 counterexample: running `Literal "é"` against the Ruler reports
length 2 (the UTF-8 byte count added by `write_str`, `self.length +=
s.len()`), while the real sink receives 1 character. -/
theorem c4_ruler_counts_bytes :
    measuredLen 9 [.Literal (str "é")] [] = some 2 ∧
    renderOut 9 [.Literal (str "é")] [] = some (str "é") ∧
    (str "é").length = 1 ∧ (2 : Nat) ≠ 1 := by
  refine ⟨rfl, rfl, rfl, by decide⟩

/-- C4 amended: on any completed run the Ruler's reading equals the UTF-8
byte count of the text the real sink receives — which equals the
codepoint count exactly when that text is ASCII (so the claim as stated
holds on ASCII output only). -/
theorem c4_measure_is_bytes (fuel : Nat) (dirs : List Directive)
    (args : List Val) (t : List (List Char)) (rest : List Val)
    (h : exec fuel false dirs args = .ok (t, rest)) :
    measuredLen fuel dirs args = some (utf8Len t.flatten) ∧
    renderOut fuel dirs args = some t.flatten ∧
    ((∀ c ∈ t.flatten, c.toNat < 128) →
      measuredLen fuel dirs args = some t.flatten.length) := by
  refine ⟨?_, ?_, ?_⟩
  · unfold measuredLen
    rw [h]
    show some (rulerLen t) = some (utf8Len t.flatten)
    rw [rulerLen_eq_utf8Len]
  · unfold renderOut
    rw [h]
  · intro hascii
    unfold measuredLen
    rw [h]
    show some (rulerLen t) = some t.flatten.length
    rw [rulerLen_eq_utf8Len, utf8Len_ascii _ hascii]

/-- C4 witness. -/
theorem c4_measure_is_bytes_witness :
    exec 3 false [.Literal (str "ab")] [] = .ok ([str "ab"], []) ∧
    measuredLen 3 [.Literal (str "ab")] []
      = some (utf8Len ([str "ab"] : List (List Char)).flatten) := by
  refine ⟨rfl, (c4_measure_is_bytes 3 [.Literal (str "ab")] [] [str "ab"] [] rfl).1⟩

/-! ## Claims about alignment -/

theorem exec_nil_pos (f : Nat) (b : Bool) (args : List Val) (h : 0 < f) :
    exec f b [] args = .ok ([], args) := by
  cases f with
  | zero => omega
  | succ n => rfl

/-- C3 counterexample: centring `"a"` (measured length 1) in 4 columns
writes one pad character on each side — `(4 - 1) / 2 = 1` before and
after — so the block is 3 wide, not the claimed `min_columns = 4`. -/
theorem c3_centre_odd_loses_one :
    renderOut 9 [.Align 4 0 0 ' ' .Centre [.Literal (str "a")]] [] = some (str " a ") ∧
    (str " a ").length = 3 ∧ (3 : Nat) ≠ 4 := by
  refine ⟨rfl, rfl, by decide⟩

/-- C3 amended: for a Centre alignment the engine writes
`(min_columns - L) / 2` pad characters before the content and the same
floor half after it (both guarded by `min_columns > L`); the odd
remainder is written nowhere, so when `min_columns - L` is odd the
rendered block is `min_columns - 1` wide. -/
theorem c3_centre_floor_both (fuel mc ci mp : Nat) (padc : Char)
    (s : List Char) (args : List Val)
    (hb : ∀ c ∈ s, c ≠ lbrace ∧ c ≠ rbrace)
    (ha : ∀ c ∈ s, c.toNat < 128) :
    exec (fuel + 3) false [.Align mc ci mp padc .Centre [.Literal s]] args =
      .ok ((if s.length < mc then [List.replicate ((mc - s.length) / 2) padc] else [])
          ++ [s] ++
          (if s.length < mc then [List.replicate ((mc - s.length) / 2) padc] else []),
        args) ∧
    (s.length < mc →
      (((if s.length < mc then [List.replicate ((mc - s.length) / 2) padc] else [])
          ++ [s] ++
          (if s.length < mc then [List.replicate ((mc - s.length) / 2) padc] else []))
        : List (List Char)).flatten.length
        = s.length + 2 * ((mc - s.length) / 2)) := by
  have hw : writeLit s = some s := writeLit_no_brace _ hb
  have hin : exec (fuel + 2) false [.Literal s] args = .ok ([s], args) := by
    rw [show fuel + 2 = (fuel + 1) + 1 by omega,
      exec_literal_cons (fuel + 1) false _ _ _ _ hw,
      exec_nil_pos (fuel + 1) false args (by omega)]
    rfl
  have hnil : exec (fuel + 2) false [] args = .ok ([], args) :=
    exec_nil_pos (fuel + 2) false args (by omega)
  have hL : rulerLen [s] = s.length := by
    rw [rulerLen_eq_utf8Len]
    simp [utf8Len_ascii _ ha]
  constructor
  · rw [show fuel + 3 = (fuel + 2) + 1 by omega]
    simp only [exec, hw, mapCons, leftFillTrace, rightFillTrace, mapAppend,
      Bool.false_eq_true, if_false, gt_iff_lt, hL]
    simp
  · intro hlt
    simp only [if_pos hlt]
    simp [List.flatten, List.length_append, List.length_replicate]
    omega

/-- C3 witness. -/
theorem c3_centre_floor_both_witness :
    ((∀ c ∈ str "a", c ≠ lbrace ∧ c ≠ rbrace) ∧ (∀ c ∈ str "a", c.toNat < 128)) ∧
    exec 9 false [.Align 4 0 0 ' ' .Centre [.Literal (str "a")]] [] =
      .ok ([[' '], str "a", [' ']], []) := by
  refine ⟨⟨by decide, by decide⟩, ?_⟩
  have h := (c3_centre_floor_both 6 4 0 0 ' ' (str "a") [] (by decide) (by decide)).1
  simpa using h

/-! ## Claims about missing arguments -/

theorem mapCons_missingArg_iff (t : List Char)
    (r : ExecRes (List (List Char) × List Val)) :
    mapCons t r = .missingArg ↔ r = .missingArg := by
  cases r with
  | ok p => cases p; simp [mapCons]
  | brk p => cases p; simp [mapCons]
  | err => simp [mapCons]
  | missingArg => simp [mapCons]
  | fuelOut => simp [mapCons]

theorem mapAppend_missingArg_iff (t : List (List Char))
    (r : ExecRes (List (List Char) × List Val)) :
    mapAppend t r = .missingArg ↔ r = .missingArg := by
  cases r with
  | ok p => cases p; simp [mapAppend]
  | brk p => cases p; simp [mapAppend]
  | err => simp [mapAppend]
  | missingArg => simp [mapAppend]
  | fuelOut => simp [mapAppend]

/-- No run of generated code ever yields the spec's `MissingArgument`
error value: the engine has no such error path at all. -/
theorem exec_ne_missingArg :
    ∀ (fuel : Nat) (b : Bool) (dirs : List Directive) (args : List Val),
      exec fuel b dirs args ≠ .missingArg := by
  intro fuel
  induction fuel with
  | zero => intro b dirs args h; exact ExecRes.noConfusion h
  | succ f ih =>
    intro b dirs args
    cases dirs with
    | nil => intro h; exact ExecRes.noConfusion h
    | cons d rest =>
      cases d <;>
        simp only [exec] <;>
        (repeat' split)
      all_goals try exact fun h => ExecRes.noConfusion h
      all_goals try exact ih _ _ _
      all_goals try (intro h; rw [mapCons_missingArg_iff] at h; exact ih _ _ _ h)
      all_goals try (intro h; rw [mapAppend_missingArg_iff] at h; exact ih _ _ _ h)
      all_goals try (exfalso; exact ih _ _ _ (by assumption))

/-- Which directive arms of `write_expressions` pop an argument
(`expressions.next()`). -/
def needsPop : Directive → Bool
  | .TildeA => true
  | .TildeS => true
  | .Skip => true
  | .Decimal _ _ _ _ _ _ => true
  | .Float _ _ _ => true
  | .Iteration _ => true
  | .Conditional _ _ _ _ => true
  | _ => false

/-- C8 amended: when a directive that pops an argument meets an exhausted
cursor, the result is `err` — the `expressions.next().expect("enough
parameters")` panic at macro-expansion time (or the
`__formatcl_iteration.next().unwrap()` panic at run time inside a loop
body) — never a returned `MissingArgument` error value
(`exec_ne_missingArg` shows no input at all produces one). -/
theorem c8_pop_on_empty_panics (fuel : Nat) (b : Bool) (d : Directive)
    (rest : List Directive) (h : needsPop d = true) :
    exec (fuel + 1) b (d :: rest) [] = .err := by
  cases d <;> simp [needsPop] at h <;> simp [exec]

/-- C8 witness. -/
theorem c8_pop_on_empty_panics_witness :
    needsPop .TildeA = true ∧ exec 8 false [.TildeA] [] = .err := by
  exact ⟨rfl, c8_pop_on_empty_panics 7 false .TildeA [] rfl⟩

/-- C8 counterexample: at the concrete input `~A` with no arguments the
engine panics (`err`), which is not the `MissingArgument` error value the
claim promises. -/
theorem c8_missing_argument_is_panic :
    exec 9 false [.TildeA] [] = ExecRes.err ∧
    (ExecRes.err : ExecRes (List (List Char) × List Val)) ≠ .missingArg := by
  exact ⟨rfl, fun h => ExecRes.noConfusion h⟩

/-! ## Claims about iteration termination -/

/-- Directives that pop nothing from the argument cursor, with the texts
of literals surviving `write!` (the program compiles): the hypothesis
under which an iteration body consumes no element. -/
inductive NonConsuming : Directive → Prop where
  | lit (s t : List Char) (h : writeLit s = some t) : NonConsuming (.Literal s)
  | newline : NonConsuming .Newline
  | brk : NonConsuming .Break
  | align (mc ci mp : Nat) (padc : Char) (dir : Alignment)
      (inner : List Directive) (h : ∀ d ∈ inner, NonConsuming d) :
      NonConsuming (.Align mc ci mp padc dir inner)

/-- One pass of a non-consuming body over a non-empty element list either
runs out of fuel or completes with the element list unchanged (and in
particular never breaks and never fails). -/
theorem exec_nonconsuming :
    ∀ (fuel : Nat) (body : List Directive) (elems : List Val),
      (∀ d ∈ body, NonConsuming d) → elems ≠ [] →
      exec fuel true body elems = .fuelOut ∨
      ∃ t, exec fuel true body elems = .ok (t, elems) := by
  intro fuel
  induction fuel with
  | zero => intro body elems _ _; left; rfl
  | succ f ih =>
    intro body elems h hne
    cases body with
    | nil => right; exact ⟨[], rfl⟩
    | cons d rest =>
      have hd := h d (by simp)
      have hrest : ∀ x ∈ rest, NonConsuming x := fun x hx => h x (by simp [hx])
      have hemp : elems.isEmpty = false := by
        cases elems with
        | nil => exact absurd rfl hne
        | cons a as => rfl
      cases hd with
      | lit s t hw =>
        rw [exec_literal_cons f true s t rest elems hw]
        rcases ih rest elems hrest hne with hf | ⟨ts, hok⟩
        · left; rw [hf]; rfl
        · right; exact ⟨t :: ts, by rw [hok]; rfl⟩
      | newline =>
        simp only [exec]
        rcases ih rest elems hrest hne with hf | ⟨ts, hok⟩
        · left; rw [hf]; rfl
        · right; exact ⟨['\n'] :: ts, by rw [hok]; rfl⟩
      | brk =>
        simp only [exec, hemp, if_true, if_false]
        exact ih rest elems hrest hne
      | align mc ci mp padc dir inner hinner =>
        rcases ih inner elems hinner hne with hf | ⟨rt, hok⟩
        · left; simp only [exec, hf]
        · simp only [exec, hok, if_true]
          rcases ih rest elems hrest hne with hf2 | ⟨ts, hok2⟩
          · left; rw [hf2]; rfl
          · right
            refine ⟨leftFillTrace dir mc (rulerLen rt) padc ++ rt ++
              rightFillTrace dir mc (rulerLen rt) padc ++ ts, ?_⟩
            rw [hok2]
            simp [mapAppend]

/-- C9: rendering an iteration whose body pops no argument never
terminates on a non-empty iterable: the generated loop checks `peek` only
at the top of each pass, the body leaves the element iterator where it
was, so the run exhausts any amount of fuel. -/
theorem c9_nonconsuming_iteration_diverges :
    ∀ (fuel : Nat) (body : List Directive), (∀ d ∈ body, NonConsuming d) →
      ∀ (e : Val) (es : List Val),
        exec fuel false [.Iteration body] [.vlist (e :: es)] = .fuelOut := by
  intro fuel
  induction fuel with
  | zero => intro body _ e es; rfl
  | succ f ih =>
    intro body h e es
    have hne : (e :: es) ≠ ([] : List Val) := by simp
    simp only [exec, List.isEmpty_cons, if_false, Bool.false_eq_true]
    rcases exec_nonconsuming f body (e :: es) h hne with hf | ⟨t, hok⟩
    · rw [hf]
    · rw [hok]
      show mapAppend t (exec f false [Directive.Iteration body] [Val.vlist (e :: es)])
        = ExecRes.fuelOut
      rw [ih body h e es]
      rfl

/-- C9 witness. -/
theorem c9_nonconsuming_iteration_diverges_witness :
    (∀ d ∈ [Directive.Literal (str "x")], NonConsuming d) ∧
    exec 7 false [.Iteration [.Literal (str "x")]] [.vlist [.vstr (str "a")]]
      = .fuelOut := by
  have hnc : ∀ d ∈ [Directive.Literal (str "x")], NonConsuming d := by
    intro d hd
    simp only [List.mem_singleton] at hd
    subst hd
    exact NonConsuming.lit (str "x") (str "x") rfl
  exact ⟨hnc, c9_nonconsuming_iteration_diverges 7 [.Literal (str "x")] hnc
    (.vstr (str "a")) []⟩

end Clf
